import Mathlib

/-!
Shallow embedding of the crawl engine (package `crawl`): the gob/json
serialization layer (`gobDB.PutObj` / `gobDB.GetObj`), the URL
canonicalizer (`normalizeURL`), the `Enqueue` read-check-write
sequence, the worker-side `handleJob` / `handleURL` classification and
the handler middlewares `FollowRedirects` and `HandleRetries`.
Stateful code is embedded by explicit state passing over `CrawlState`
(the crawl database plus the frontier queue); fallible operations
return `Option` / `Except`.
-/

namespace Crawl

/-! ### Byte-stream model of serialized payloads

`encoding/gob` (used by `gobDB`) and `encoding/json` (used for queue
payloads) are external, self-describing binary formats.  They are
modelled as streams of symbolic tokens: a token is either a length /
number or a character.  A decoder consumes tokens and fails on a
stream of the wrong shape, which models `gob.Decode` / `json.Unmarshal`
errors on malformed payloads. -/

inductive Token where
  | nat (n : Nat)
  | ch (c : Char)
deriving DecidableEq, Repr

abbrev Bytes := List Token

def encodeString (s : String) : Bytes :=
  Token.nat s.length :: s.data.map Token.ch

def decodeChars : Nat → Bytes → Option (List Char × Bytes)
  | 0, b => some ([], b)
  | n + 1, Token.ch c :: b =>
      (decodeChars n b).map (fun p => (c :: p.1, p.2))
  | _ + 1, _ => none

def decodeString : Bytes → Option (String × Bytes)
  | Token.nat n :: b => (decodeChars n b).map (fun p => (String.mk p.1, p.2))
  | _ => none

def encodeNat (n : Nat) : Bytes := [Token.nat n]

def decodeNat : Bytes → Option (Nat × Bytes)
  | Token.nat n :: b => some (n, b)
  | _ => none

def encodeInt : Int → Bytes
  | Int.ofNat n => [Token.nat 0, Token.nat n]
  | Int.negSucc n => [Token.nat 1, Token.nat n]

def decodeInt : Bytes → Option (Int × Bytes)
  | Token.nat 0 :: Token.nat n :: b => some (Int.ofNat n, b)
  | Token.nat 1 :: Token.nat n :: b => some (Int.negSucc n, b)
  | _ => none

/-! ### URLInfo and queueItem records -/

/-- Record `URLInfo` stores information about a crawled URL; `time.Time` is
modelled as a natural-number timestamp. -/
structure URLInfo where
  URL : String
  StatusCode : Nat
  CrawledAt : Nat
  Error : String
deriving DecidableEq, Repr

/-- The zero value of `URLInfo` (`var info URLInfo`). -/
def emptyURLInfo : URLInfo := ⟨"", 0, 0, ""⟩

def encodeURLInfo (i : URLInfo) : Bytes :=
  encodeString i.URL ++ encodeNat i.StatusCode ++
    encodeNat i.CrawledAt ++ encodeString i.Error

def decodeURLInfo (b : Bytes) : Option URLInfo :=
  match decodeString b with
  | none => none
  | some (u, b) =>
    match decodeNat b with
    | none => none
    | some (sc, b) =>
      match decodeNat b with
      | none => none
      | some (ca, b) =>
        match decodeString b with
        | none => none
        | some (e, b) => if b = [] then some ⟨u, sc, ca, e⟩ else none

/-- Record `queueItem` is the serialized frontier payload (`json.Marshal`). -/
structure queueItem where
  URL : String
  Depth : Int
deriving DecidableEq, Repr

def encodeQueueItem (it : queueItem) : Bytes :=
  encodeString it.URL ++ encodeInt it.Depth

def decodeQueueItem (b : Bytes) : Option queueItem :=
  match decodeString b with
  | none => none
  | some (u, b) =>
    match decodeInt b with
    | none => none
    | some (d, b) => if b = [] then some ⟨u, d⟩ else none

/-! ### The object store adapter (`gobDB`)

LevelDB is modelled as an association list from string keys to byte
streams; `Put` replaces the value bound to a key, `Get` on a missing
key is the distinguished not-found error. -/

abbrev Store := List (String × Bytes)

def storeGet (s : Store) (k : String) : Option Bytes :=
  (s.find? (fun p => p.1 == k)).map Prod.snd

def storePut (s : Store) (k : String) (v : Bytes) : Store :=
  (k, v) :: s.filter (fun p => ¬ p.1 == k)

/-- Errors surfaced by `gobDB.GetObj`: the store's not-found error, or
a gob decoding error. -/
inductive GetErr where
  | notFound
  | decodeFailed
deriving DecidableEq, Repr

/-- Read `gobDB.GetObj`: read the raw bytes and decode them through the
shape expected by the caller (the decoder argument). -/
def getObj {α : Type} (decode : Bytes → Option α) (s : Store) (k : String) :
    Except GetErr α :=
  match storeGet s k with
  | none => Except.error GetErr.notFound
  | some b =>
    match decode b with
    | none => Except.error GetErr.decodeFailed
    | some v => Except.ok v

/-! ### URL model and the canonicalizer

`net/url.URL` is modelled structurally: scheme, host, optional port,
the path as the list of segments between slashes (an absolute path
`/a//b/` is `["a", "", "b", ""]`), the query as a list of key/value
pairs and the fragment.  `normalizeURL` applies `purell.NormalizeURL`
with `FlagsSafe | FlagRemoveDotSegments | FlagRemoveDuplicateSlashes |
FlagRemoveFragment | FlagSortQuery` and re-parses the result.

Modelled from the spec: the purell library itself is an external
dependency, so the normalization is taken from the spec's list —
unicode host (and scheme) lowercasing, default-port removal,
dot-segment resolution, duplicate-slash collapse, fragment removal,
query-parameter sort, and path percent-encoding normalization
(uppercase escape hex digits, decode escapes of unreserved
characters, encode characters that may not appear literally in a
path segment). -/

structure URLRec where
  Scheme : String
  Host : String
  Port : Option Nat
  PathSegs : List String
  Query : List (String × String)
  Fragment : String
deriving DecidableEq, Repr

/-- Simple case mapping on code points, as `strings.ToLower` performs
rune-wise: the contiguous uppercase ranges of Basic Latin (A–Z),
Latin-1 Supplement (À–Ö, Ø–Þ), Greek (Α–Ρ, Σ–Ω) and Cyrillic (Ѐ–Џ,
А–Я) map to their lowercase counterparts; all other code points are
unchanged (the remaining Unicode case tables are scattered exceptions
with the same fixed-point structure). -/
def lowerNat (n : Nat) : Nat :=
  if (65 ≤ n ∧ n ≤ 90) ∨ (192 ≤ n ∧ n ≤ 214) ∨ (216 ≤ n ∧ n ≤ 222) ∨
      (913 ≤ n ∧ n ≤ 929) ∨ (931 ≤ n ∧ n ≤ 939) ∨ (1040 ≤ n ∧ n ≤ 1071) then
    n + 32
  else if 1024 ≤ n ∧ n ≤ 1039 then n + 80
  else n

/-- Lowercase a single character via `lowerNat`. -/
def uniToLower (c : Char) : Char :=
  if c.toNat < 1072 then Char.ofNat (lowerNat c.toNat) else c

/-- Unicode lowercasing of a string, one character at a time. -/
def lowerString (s : String) : String := String.mk (s.data.map uniToLower)

/-- An atom of a path segment: a literal character, or a
percent-escape `%XY` holding the byte value `XY`. -/
inductive PAtom where
  | lit (c : Char)
  | esc (v : Nat)
deriving DecidableEq, Repr

/-- RFC 3986 unreserved byte: ALPHA / DIGIT / `-` / `.` / `_` / `~`. -/
def isUnresNat (n : Nat) : Bool :=
  decide ((65 ≤ n ∧ n ≤ 90) ∨ (97 ≤ n ∧ n ≤ 122) ∨ (48 ≤ n ∧ n ≤ 57) ∨
    n = 45 ∨ n = 46 ∨ n = 95 ∨ n = 126)

/-- RFC 3986 `pchar` (sans pct-encoded): unreserved / sub-delims /
`:` / `@`, the characters that may appear literally in a path
segment. -/
def isPcharNat (n : Nat) : Bool :=
  isUnresNat n ||
    decide (n = 33 ∨ n = 36 ∨ n = 38 ∨ n = 39 ∨ n = 40 ∨ n = 41 ∨ n = 42 ∨
      n = 43 ∨ n = 44 ∨ n = 58 ∨ n = 59 ∨ n = 61 ∨ n = 64)

/-- An ASCII character that may not stand literally in a path segment
must be percent-encoded.  Non-ASCII characters are kept literal: at
the byte level they would be escaped per UTF-8 byte, which the
character-level model does not split. -/
def needsEscapeB (c : Char) : Bool :=
  decide (c.toNat < 128) && ! isPcharNat c.toNat

def isHexDigitNat (n : Nat) : Bool :=
  decide ((48 ≤ n ∧ n ≤ 57) ∨ (65 ≤ n ∧ n ≤ 70) ∨ (97 ≤ n ∧ n ≤ 102))

/-- Numeric value of a hex digit character. -/
def hexVal (c : Char) : Nat :=
  if c.toNat ≤ 57 then c.toNat - 48
  else if c.toNat ≤ 70 then c.toNat - 55
  else c.toNat - 87

/-- Uppercase hex digit character of a value below 16. -/
def hexUpper (d : Nat) : Char :=
  if d < 10 then Char.ofNat (48 + d) else Char.ofNat (55 + d)

/-- Split a path segment into atoms: `%` followed by two hex digits
is an escape; any other character, including a stray `%`, is a
literal. -/
def parseAtoms : List Char → List PAtom
  | [] => []
  | c :: rest =>
    if c = '%' then
      match rest with
      | h1 :: h2 :: rest2 =>
          if isHexDigitNat h1.toNat ∧ isHexDigitNat h2.toNat then
            PAtom.esc (hexVal h1 * 16 + hexVal h2) :: parseAtoms rest2
          else PAtom.lit c :: parseAtoms (h1 :: h2 :: rest2)
      | [] => PAtom.lit c :: parseAtoms []
      | [h1] => PAtom.lit c :: parseAtoms [h1]
    else PAtom.lit c :: parseAtoms rest
termination_by l => l.length
decreasing_by
  all_goals simp only [List.length_cons, List.length_nil]
  all_goals omega

/-- Normalize one atom: decode an escape of an unreserved byte, keep
any other escape, and encode a literal that may not stand
unescaped. -/
def normAtom : PAtom → PAtom
  | PAtom.esc v => if isUnresNat v then PAtom.lit (Char.ofNat v) else PAtom.esc v
  | PAtom.lit c => if needsEscapeB c then PAtom.esc c.toNat else PAtom.lit c

/-- Render an atom back to characters, escapes with uppercase hex. -/
def renderAtom : PAtom → List Char
  | PAtom.lit c => [c]
  | PAtom.esc v => ['%', hexUpper (v / 16), hexUpper (v % 16)]

/-- Percent-encoding normalization of one path segment: parse into
atoms, normalize each, render back. -/
def normalizeEscapes (s : String) : String :=
  String.mk (((parseAtoms s.data).map normAtom).flatMap renderAtom)

/-- A normal-form atom: a literal that needs no escape, or an escape
of a byte that is not unreserved. -/
def goodAtom : PAtom → Prop
  | PAtom.lit c => needsEscapeB c = false
  | PAtom.esc v => v < 256 ∧ isUnresNat v = false

/-- Escape values produced by `parseAtoms` are bytes. -/
def escBound : PAtom → Prop
  | PAtom.lit _ => True
  | PAtom.esc v => v < 256

/-- Default-port test: port 80 for `http`, port 443 for `https`. -/
def isDefaultPort (scheme : String) : Option Nat → Bool
  | some 80 => scheme == "http"
  | some 443 => scheme == "https"
  | _ => false

/-- Collapse duplicate slashes: drop empty path segments, keeping a
single trailing empty segment (a trailing slash) if the path ended
with one. -/
def collapseSlashes (l : List String) : List String :=
  let r := l.filter (fun s => ¬ s == "")
  if l.getLast? = some "" then r ++ [""] else r

/-- RFC 3986 `remove_dot_segments` over segment lists: `"."` is
dropped, `".."` pops the previous segment, and a final `"."` or `".."`
leaves a trailing slash.  `acc` holds the kept segments in reverse. -/
def rmDotsAux (acc : List String) : List String → List String
  | [] => acc.reverse
  | s :: rest =>
    if s = "." then
      (if rest = [] then acc.reverse ++ [""] else rmDotsAux acc rest)
    else if s = ".." then
      (if rest = [] then (acc.drop 1).reverse ++ [""]
       else rmDotsAux (acc.drop 1) rest)
    else rmDotsAux (s :: acc) rest

def removeDotSegments (l : List String) : List String := rmDotsAux [] l

/-- Query-parameter sort: key first, value second. -/
def qLE (a b : String × String) : Prop :=
  a.1 < b.1 ∨ (a.1 = b.1 ∧ a.2 ≤ b.2)

instance : DecidableRel qLE := fun a b =>
  inferInstanceAs (Decidable (a.1 < b.1 ∨ (a.1 = b.1 ∧ a.2 ≤ b.2)))

def sortQuery (q : List (String × String)) : List (String × String) :=
  q.insertionSort qLE

/-- The canonicalization applied by `Enqueue` (`normalizeURL`). -/
def normalizeURL (u : URLRec) : URLRec :=
  let scheme := lowerString u.Scheme
  { Scheme := scheme
    Host := lowerString u.Host
    Port := if isDefaultPort scheme u.Port then none else u.Port
    PathSegs := removeDotSegments (collapseSlashes
      (u.PathSegs.map normalizeEscapes))
    Query := sortQuery u.Query
    Fragment := "" }

/-- Go `url.URL.Host` (the host with its optional `:port` suffix), used
as the frontier tag. -/
def hostPort (u : URLRec) : String :=
  u.Host ++ (match u.Port with
             | none => ""
             | some p => ":" ++ toString p)

def pathString (segs : List String) : String :=
  String.join (segs.map (fun s => "/" ++ s))

def queryString (q : List (String × String)) : String :=
  match q with
  | [] => ""
  | _ => "?" ++ String.intercalate "&" (q.map (fun p => p.1 ++ "=" ++ p.2))

def fragmentString (f : String) : String :=
  if f = "" then "" else "#" ++ f

/-- Go `url.URL.String()`: the canonical string form used as the identity
of a URL (`url/<canonical>` keys, queued payloads). -/
def urlString (u : URLRec) : String :=
  u.Scheme ++ "://" ++ hostPort u ++ pathString u.PathSegs ++
    queryString u.Query ++ fragmentString u.Fragment

/-! ### The crawler engine

`Crawler` state is the crawl database plus the frontier queue; the
injected scope, fetcher and handler are passed explicitly.  The
enqueue mutex serializes `Enqueue`, so it is embedded as a sequential
state transformer. -/

/-- Constant `TagPrimary` is a primary reference (another web page). -/
def TagPrimary : Nat := 0

/-- Constant `TagRelated` is a secondary resource, related to a page. -/
def TagRelated : Nat := 1

/-- An `Outlink` is a tagged outbound link. -/
structure Outlink where
  URL : URLRec
  Tag : Nat
deriving DecidableEq, Repr

/-- A Go `error` value as classified by the engine: the
`ErrRetryRequest` sentinel (compared by identity), or any other
error. -/
inductive GoErr where
  | retryRequest
  | other (msg : String)
deriving DecidableEq, Repr

/-- Predicate `Scope.Check`: a pure predicate on a tagged link and its depth. -/
abbrev Scope := Outlink → Int → Bool

/-- The mutable state owned by the crawler: the object store and the
frontier queue (a list of `(tag, payload)` entries; `Add` appends). -/
structure CrawlState where
  store : Store
  queue : List (String × Bytes)
deriving DecidableEq, Repr

/-- The `url/<canonical>` key of a canonical URL string. -/
def urlKey (canonical : String) : String := "url/" ++ canonical

def getURLInfo (s : Store) (k : String) : Except GetErr URLInfo :=
  getObj decodeURLInfo s k

/-- Operation `Crawler.Enqueue`.  Here `addErr` is the outcome `queue.Add` would
report (`none` = the `Add` succeeds); the store lookup, the `Add` of
the serialized `queueItem` under the host tag
(`addNewURLToQueue`) and the `PutObj` of the empty `URLInfo` sentinel
follow the source's order. -/
def enqueue (addErr : Option GoErr) (scope : Scope) (st : CrawlState)
    (link : Outlink) (depth : Int) : CrawlState × Option GoErr :=
  let nlink : Outlink := { link with URL := normalizeURL link.URL }
  if ! scope nlink depth then (st, none)
  else
    let ukey := urlKey (urlString nlink.URL)
    match getURLInfo st.store ukey with
    | Except.ok _ => (st, none)
    | Except.error _ =>
      match addErr with
      | some e => (st, some e)
      | none =>
        let data := encodeQueueItem { URL := urlString nlink.URL, Depth := depth }
        let st1 : CrawlState := { st with queue := st.queue ++ [(hostPort nlink.URL, data)] }
        ({ st1 with store := storePut st1.store ukey (encodeURLInfo emptyURLInfo) }, none)

/-- A serialized sequence of `Enqueue` calls (all `Add`s succeeding),
as produced under the enqueue mutex. -/
def enqueueSeq (scope : Scope) (st : CrawlState)
    (calls : List (Outlink × Int)) : CrawlState :=
  calls.foldl (fun s c => (enqueue none scope s c.1 c.2).1) st

/-! ### The handler pipeline -/

/-- An HTTP response as seen by the handlers: status code, headers and
the request URL redirect `Location` values are resolved against. -/
structure Response where
  StatusCode : Nat
  Headers : List (String × String)
  RequestURL : URLRec
deriving DecidableEq, Repr

/-- Lookup `http.Header.Get`: the first value bound to a key, `""` when the
header is absent. -/
def headerGet (h : List (String × String)) (k : String) : String :=
  ((h.find? (fun p => p.1 == k)).map Prod.snd).getD ""

/-- The `(resp, err)` pair a `Fetcher` returns: the response on
success, the fetch error otherwise. -/
inductive FetchResult where
  | failure (e : GoErr)
  | success (r : Response)
deriving DecidableEq, Repr

/-- One `Crawler.Enqueue` call made by a handler, as observed in the
middleware trace. -/
structure EnqCall where
  link : Outlink
  depth : Int
deriving DecidableEq, Repr

/-- A `Handler`: given the crawler state, the URL, the depth and the
fetch outcome, it returns the updated crawler state, the trace of
`Enqueue` calls it made, and its `error` result (`none` = `nil`). -/
abbrev Handler :=
  CrawlState → String → Int → FetchResult → CrawlState × List EnqCall × Option GoErr

/-- Middleware `HandleRetries`: retry on fetch errors, HTTP 429 and any status
`≥ 500`; otherwise forward to the wrapped handler with the fetch
error cleared. -/
def HandleRetries (wrap : Handler) : Handler := fun st u depth fr =>
  match fr with
  | FetchResult.failure _ => (st, [], some GoErr.retryRequest)
  | FetchResult.success r =>
    if r.StatusCode == 429 || decide (r.StatusCode ≥ 500) then
      (st, [], some GoErr.retryRequest)
    else wrap st u depth (FetchResult.success r)

/-- Middleware `FollowRedirects`: call the wrapped handler first and propagate
its error; on a 3xx response with a non-empty `Location` header,
resolve the header against the request URL (`resolve` stands for
`url.URL.Parse`, `none` on a malformed reference, which is logged and
ignored) and `Enqueue` the target as a `TagPrimary` link at
`depth + 1`. -/
def FollowRedirects (addErr : Option GoErr) (scope : Scope)
    (resolve : URLRec → String → Option URLRec) (wrap : Handler) : Handler :=
  fun st u depth fr =>
    match wrap st u depth fr with
    | (st1, calls, some herr) => (st1, calls, some herr)
    | (st1, calls, none) =>
      match fr with
      | FetchResult.failure _ => (st1, calls, none)
      | FetchResult.success r =>
        let location := headerGet r.Headers "Location"
        if decide (r.StatusCode ≥ 300) && decide (r.StatusCode < 400) && ¬ location == "" then
          match resolve r.RequestURL location with
          | none => (st1, calls, none)
          | some locURL =>
            let link : Outlink := { URL := locURL, Tag := TagPrimary }
            let res := enqueue addErr scope st1 link (depth + 1)
            (res.1, calls ++ [⟨link, depth + 1⟩], res.2)
        else (st1, calls, none)

/-! ### The worker side: `handleJob` / `handleURL` -/

/-- The record `handleURL` prepares before invoking the handler: the
existing `url/<canonical>` record if present (errors ignored, the
zero value otherwise), with `CrawledAt` and `URL` refreshed and the
status code recorded when the fetch succeeded. -/
def updatedInfo (fetcher : String → FetchResult) (now : Nat) (st : CrawlState)
    (item : queueItem) : URLInfo :=
  let info0 := match getURLInfo st.store (urlKey item.URL) with
               | Except.ok i => i
               | Except.error _ => emptyURLInfo
  let info1 := { info0 with CrawledAt := now, URL := item.URL }
  match fetcher item.URL with
  | FetchResult.success r => { info1 with StatusCode := r.StatusCode }
  | FetchResult.failure _ => info1

/-- What `handleURL` reports: `done st res` is the error value handed
to `job.Done` (`none` removes the entry, `retryRequest` re-queues it)
together with the resulting state; `fatal` is the `log.Fatalf` abort
on any other handler error. -/
inductive HandleOutcome where
  | done (st : CrawlState) (res : Option GoErr)
  | fatal (e : GoErr)
deriving DecidableEq, Repr

/-- Operation `Crawler.handleURL`. -/
def handleURL (fetcher : String → FetchResult) (handler : Handler) (now : Nat)
    (st : CrawlState) (item : queueItem) : HandleOutcome :=
  let urlkey := urlKey item.URL
  let info := updatedInfo fetcher now st item
  match handler st item.URL item.Depth (fetcher item.URL) with
  | (st1, _, none) =>
      HandleOutcome.done
        { st1 with store := storePut st1.store urlkey (encodeURLInfo info) } none
  | (st1, _, some GoErr.retryRequest) =>
      HandleOutcome.done st1 (some GoErr.retryRequest)
  | (_, _, some (GoErr.other e)) => HandleOutcome.fatal (GoErr.other e)

/-- Operation `Crawler.handleJob`: decode the payload; a malformed payload is a
permanent error (`return nil`), otherwise process the item. -/
def handleJob (fetcher : String → FetchResult) (handler : Handler) (now : Nat)
    (st : CrawlState) (data : Bytes) : HandleOutcome :=
  match decodeQueueItem data with
  | none => HandleOutcome.done st none
  | some item => handleURL fetcher handler now st item

/-! ### Counting helpers for the dedupe invariant -/

/-- Number of store entries under a given key. -/
def storeCount (s : Store) (k : String) : Nat :=
  (s.filter (fun p => p.1 == k)).length

/-- Number of frontier entries whose payload decodes to a `queueItem`
for the given canonical URL string. -/
def queueCountFor (q : List (String × Bytes)) (c : String) : Nat :=
  (q.filter (fun e => match decodeQueueItem e.2 with
                      | some it => it.URL == c
                      | none => false)).length

/-- Every `URLInfo` record decodable from the store has an empty
`Error` field. -/
def storeErrorsEmpty (s : Store) : Prop :=
  ∀ p ∈ s, ∀ i, decodeURLInfo p.2 = some i → i.Error = ""

/-! ### Serialization round-trip lemmas -/

theorem decodeChars_encode (cs : List Char) (rest : Bytes) :
    decodeChars cs.length (cs.map Token.ch ++ rest) = some (cs, rest) := by
  induction cs with
  | nil => rfl
  | cons c cs ih => simp [decodeChars, ih]

theorem decodeString_encode (s : String) (rest : Bytes) :
    decodeString (encodeString s ++ rest) = some (s, rest) := by
  cases s with
  | mk data =>
      simp [encodeString, decodeString, String.length, decodeChars_encode]

theorem decodeNat_encode (n : Nat) (rest : Bytes) :
    decodeNat (encodeNat n ++ rest) = some (n, rest) := rfl

theorem decodeInt_encode (i : Int) (rest : Bytes) :
    decodeInt (encodeInt i ++ rest) = some (i, rest) := by
  cases i <;> rfl

theorem decodeString_encode_nil (s : String) :
    decodeString (encodeString s) = some (s, []) := by
  simpa using decodeString_encode s []

theorem decodeInt_encode_nil (i : Int) :
    decodeInt (encodeInt i) = some (i, []) := by
  simpa using decodeInt_encode i []

theorem decodeURLInfo_encode (i : URLInfo) :
    decodeURLInfo (encodeURLInfo i) = some i := by
  cases i with
  | mk u sc ca e =>
      simp [encodeURLInfo, decodeURLInfo, List.append_assoc,
        decodeString_encode, decodeNat_encode, decodeString_encode_nil]

theorem decodeQueueItem_encode (it : queueItem) :
    decodeQueueItem (encodeQueueItem it) = some it := by
  cases it with
  | mk u d =>
      simp [encodeQueueItem, decodeQueueItem, decodeString_encode,
        decodeInt_encode_nil]

/-! ### Store lemmas -/

theorem storeGet_put_same (s : Store) (k : String) (v : Bytes) :
    storeGet (storePut s k v) k = some v := by
  simp [storeGet, storePut, List.find?]

theorem find?_filter_of_imp {α : Type} (l : List α) (p q : α → Bool)
    (h : ∀ x, q x = true → p x = true) :
    (l.filter p).find? q = l.find? q := by
  induction l with
  | nil => rfl
  | cons a l ih =>
      rw [List.find?_cons]
      cases hq : q a with
      | true =>
          rw [List.filter_cons_of_pos (h a hq), List.find?_cons, hq]
      | false =>
          cases hp : p a with
          | true => rw [List.filter_cons_of_pos hp, List.find?_cons, hq, ih]
          | false => rw [List.filter_cons_of_neg (by simp [hp]), ih]

theorem find?_filter_ne (s : Store) (k k' : String) (h : k' ≠ k) :
    (s.filter (fun p => ¬ p.1 == k)).find? (fun p => p.1 == k') =
      s.find? (fun p => p.1 == k') := by
  apply find?_filter_of_imp
  intro x hx
  have hx' : x.1 = k' := by simpa using hx
  have hne : ¬ k' = k := h
  simp [hx', hne]

theorem storeGet_put_other (s : Store) (k k' : String) (v : Bytes)
    (h : k' ≠ k) : storeGet (storePut s k v) k' = storeGet s k' := by
  simp only [storeGet, storePut]
  rw [List.find?]
  have hk : ((k, v).1 == k') = false := by
    have hkk : ¬ k = k' := fun he => h he.symm
    simpa using hkk
  simp only [hk, find?_filter_ne s k k' h]

/-! ### Canonicalizer lemmas -/

theorem toNat_ofNat_valid {n : Nat} (h : n < 55296) :
    (Char.ofNat n).toNat = n := by
  have hv : n.isValidChar := Or.inl h
  unfold Char.ofNat
  rw [dif_pos hv]
  rfl

theorem lowerNat_idem (n : Nat) : lowerNat (lowerNat n) = lowerNat n := by
  unfold lowerNat
  split_ifs <;> omega

theorem lowerNat_lt (n : Nat) (h : n < 1072) : lowerNat n < 55296 := by
  unfold lowerNat
  split_ifs <;> omega

theorem uniToLower_idem (c : Char) :
    uniToLower (uniToLower c) = uniToLower c := by
  unfold uniToLower
  by_cases h : c.toNat < 1072
  · rw [if_pos h]
    have ht : (Char.ofNat (lowerNat c.toNat)).toNat = lowerNat c.toNat :=
      toNat_ofNat_valid (lowerNat_lt c.toNat h)
    by_cases h2 : (Char.ofNat (lowerNat c.toNat)).toNat < 1072
    · rw [if_pos h2, ht, lowerNat_idem]
    · rw [if_neg h2]
  · rw [if_neg h, if_neg h]

theorem lowerString_idem (s : String) :
    lowerString (lowerString s) = lowerString s := by
  simp only [lowerString, List.map_map]
  congr 1
  apply List.map_congr_left
  intro c _
  exact uniToLower_idem c

theorem collapseSlashes_tailOnlyEmpty (l : List String) :
    ∀ s ∈ (collapseSlashes l).dropLast, s ≠ "" := by
  unfold collapseSlashes
  by_cases h : l.getLast? = some ""
  · rw [if_pos h, List.dropLast_concat]
    intro s hs
    have := List.of_mem_filter hs
    simpa using this
  · rw [if_neg h]
    intro s hs
    have hs' := List.dropLast_sublist (l.filter (fun s => ¬ s == "")) |>.mem hs
    have := List.of_mem_filter hs'
    simpa using this

theorem collapseSlashes_eq_self :
    ∀ l : List String, (∀ s ∈ l.dropLast, s ≠ "") → collapseSlashes l = l := by
  intro l
  induction l with
  | nil => intro _; rfl
  | cons a l ih =>
      intro h
      cases l with
      | nil =>
          by_cases ha : a = ""
          · subst ha
            rfl
          · unfold collapseSlashes
            have : ([a] : List String).getLast? = some a := rfl
            rw [this]
            have hcond : ¬ (some a = some "") := by simpa using ha
            rw [if_neg hcond]
            simp [List.filter, ha]
      | cons b t =>
          have ha : a ≠ "" := h a (by simp [List.dropLast])
          have ht : ∀ s ∈ (b :: t).dropLast, s ≠ "" := by
            intro s hs
            exact h s (by simp [List.dropLast, hs])
          have ihbt := ih ht
          unfold collapseSlashes at ihbt ⊢
          have hlast : (a :: b :: t).getLast? = (b :: t).getLast? := by
            simp [List.getLast?]
          rw [hlast]
          have hfa : List.filter (fun s => ¬ s == "") (a :: b :: t) =
              a :: List.filter (fun s => ¬ s == "") (b :: t) := by
            simp [List.filter_cons, ha]
          by_cases hcase : (b :: t).getLast? = some ""
          · rw [if_pos hcase] at ihbt ⊢
            rw [hfa]
            rw [List.cons_append, ihbt]
          · rw [if_neg hcase] at ihbt ⊢
            rw [hfa, ihbt]

theorem rmDotsAux_shape :
    ∀ (l acc : List String),
      (∀ s ∈ acc, s ≠ "" ∧ s ≠ "." ∧ s ≠ "..") →
      (∀ s ∈ l.dropLast, s ≠ "") →
      (∀ s ∈ (rmDotsAux acc l).dropLast, s ≠ "") ∧
        (∀ s ∈ rmDotsAux acc l, s ≠ "." ∧ s ≠ "..") := by
  intro l
  induction l with
  | nil =>
      intro acc hacc _
      constructor
      · intro s hs
        have : s ∈ acc.reverse := (List.dropLast_sublist _).mem hs
        exact (hacc s (by simpa using this)).1
      · intro s hs
        have : s ∈ acc := by simpa using (show s ∈ acc.reverse from hs)
        exact (hacc s this).2
  | cons a l ih =>
      intro acc hacc hl
      unfold rmDotsAux
      by_cases hd : a = "."
      · rw [if_pos hd]
        cases l with
        | nil =>
            rw [if_pos rfl]
            constructor
            · intro s hs
              rw [List.dropLast_concat] at hs
              exact (hacc s (by simpa using hs)).1
            · intro s hs
              rcases List.mem_append.1 hs with h1 | h1
              · exact (hacc s (by simpa using h1)).2
              · simp at h1
                subst h1
                exact ⟨by decide, by decide⟩
        | cons b t =>
            rw [if_neg (by simp)]
            exact ih acc hacc (by
              intro s hs
              exact hl s (by simp [List.dropLast, hs]))
      · rw [if_neg hd]
        by_cases hdd : a = ".."
        · rw [if_pos hdd]
          have hacc' : ∀ s ∈ acc.drop 1, s ≠ "" ∧ s ≠ "." ∧ s ≠ ".." := by
            intro s hs
            exact hacc s ((List.drop_sublist 1 acc).mem hs)
          cases l with
          | nil =>
              rw [if_pos rfl]
              constructor
              · intro s hs
                rw [List.dropLast_concat] at hs
                exact (hacc' s (by simpa using hs)).1
              · intro s hs
                rcases List.mem_append.1 hs with h1 | h1
                · exact (hacc' s (by simpa using h1)).2
                · simp at h1
                  subst h1
                  exact ⟨by decide, by decide⟩
          | cons b t =>
              rw [if_neg (by simp)]
              exact ih (acc.drop 1) hacc' (by
                intro s hs
                exact hl s (by simp [List.dropLast, hs]))
        · rw [if_neg hdd]
          cases l with
          | nil =>
              have : rmDotsAux (a :: acc) [] = acc.reverse ++ [a] := by
                simp [rmDotsAux]
              rw [this]
              constructor
              · intro s hs
                rw [List.dropLast_concat] at hs
                exact (hacc s (by simpa using hs)).1
              · intro s hs
                rcases List.mem_append.1 hs with h1 | h1
                · exact (hacc s (by simpa using h1)).2
                · simp at h1
                  subst h1
                  exact ⟨hd, hdd⟩
          | cons b t =>
              have ha : a ≠ "" := hl a (by simp [List.dropLast])
              exact ih (a :: acc) (by
                  intro s hs
                  rcases List.mem_cons.1 hs with h1 | h1
                  · subst h1
                    exact ⟨ha, hd, hdd⟩
                  · exact hacc s h1)
                (by
                  intro s hs
                  exact hl s (by simp [List.dropLast, hs]))

theorem rmDotsAux_noDots :
    ∀ (l acc : List String), (∀ s ∈ l, s ≠ "." ∧ s ≠ "..") →
      rmDotsAux acc l = acc.reverse ++ l := by
  intro l
  induction l with
  | nil => intro acc _; simp [rmDotsAux]
  | cons a l ih =>
      intro acc h
      have ha := h a (by simp)
      unfold rmDotsAux
      rw [if_neg ha.1, if_neg ha.2]
      rw [ih (a :: acc) (fun s hs => h s (by simp [hs]))]
      simp

theorem parseAtoms_nil : parseAtoms [] = [] := by
  conv_lhs => unfold parseAtoms

theorem parseAtoms_cons_ne (c : Char) (l : List Char) (h : c ≠ '%') :
    parseAtoms (c :: l) = PAtom.lit c :: parseAtoms l := by
  conv_lhs => unfold parseAtoms
  rw [if_neg h]

theorem parseAtoms_esc (h1 h2 : Char) (l : List Char)
    (hh1 : isHexDigitNat h1.toNat = true) (hh2 : isHexDigitNat h2.toNat = true) :
    parseAtoms ('%' :: h1 :: h2 :: l) =
      PAtom.esc (hexVal h1 * 16 + hexVal h2) :: parseAtoms l := by
  conv_lhs => unfold parseAtoms
  rw [if_pos rfl]
  dsimp only
  rw [if_pos ⟨hh1, hh2⟩]

theorem parseAtoms_pct_nil : parseAtoms ['%'] = [PAtom.lit '%'] := by
  conv_lhs => unfold parseAtoms
  rw [if_pos rfl]
  dsimp only
  rw [parseAtoms_nil]

theorem parseAtoms_pct_one (h1 : Char) :
    parseAtoms ['%', h1] = PAtom.lit '%' :: parseAtoms [h1] := by
  conv_lhs => unfold parseAtoms
  rw [if_pos rfl]

theorem parseAtoms_pct_nonhex (h1 h2 : Char) (l : List Char)
    (h : ¬ (isHexDigitNat h1.toNat = true ∧ isHexDigitNat h2.toNat = true)) :
    parseAtoms ('%' :: h1 :: h2 :: l) =
      PAtom.lit '%' :: parseAtoms (h1 :: h2 :: l) := by
  conv_lhs => unfold parseAtoms
  rw [if_pos rfl]
  dsimp only
  rw [if_neg h]

theorem hexUpper_toNat (d : Nat) (h : d < 16) :
    (hexUpper d).toNat = (if d < 10 then 48 + d else 55 + d) := by
  unfold hexUpper
  by_cases h10 : d < 10
  · rw [if_pos h10, if_pos h10]
    exact toNat_ofNat_valid (by omega)
  · rw [if_neg h10, if_neg h10]
    exact toNat_ofNat_valid (by omega)

theorem isHexDigit_hexUpper (d : Nat) (h : d < 16) :
    isHexDigitNat (hexUpper d).toNat = true := by
  rw [hexUpper_toNat d h]
  unfold isHexDigitNat
  rw [decide_eq_true_iff]
  by_cases h10 : d < 10
  · rw [if_pos h10]
    omega
  · rw [if_neg h10]
    omega

theorem hexVal_hexUpper (d : Nat) (h : d < 16) : hexVal (hexUpper d) = d := by
  unfold hexVal
  rw [hexUpper_toNat d h]
  by_cases h10 : d < 10
  · rw [if_pos h10]
    split_ifs <;> omega
  · rw [if_neg h10]
    split_ifs <;> omega

theorem hexVal_lt (c : Char) (h : isHexDigitNat c.toNat = true) :
    hexVal c < 16 := by
  unfold isHexDigitNat at h
  rw [decide_eq_true_iff] at h
  unfold hexVal
  split_ifs <;> omega

theorem parse_escBound :
    ∀ (n : Nat) (l : List Char), l.length ≤ n →
      ∀ a ∈ parseAtoms l, escBound a := by
  intro n
  induction n with
  | zero =>
      intro l hl a ha
      have hnil : l = [] := List.eq_nil_of_length_eq_zero (Nat.le_zero.1 hl)
      rw [hnil, parseAtoms_nil] at ha
      cases ha
  | succ n ih =>
      intro l hl a ha
      cases l with
      | nil =>
          rw [parseAtoms_nil] at ha
          cases ha
      | cons c rest =>
          by_cases hc : c = '%'
          · subst hc
            cases rest with
            | nil =>
                rw [parseAtoms_pct_nil] at ha
                rcases List.mem_cons.1 ha with h1 | h1
                · rw [h1]; trivial
                · cases h1
            | cons h1c tl1 =>
                cases tl1 with
                | nil =>
                    rw [parseAtoms_pct_one] at ha
                    rcases List.mem_cons.1 ha with hh | hh
                    · rw [hh]; trivial
                    · exact ih [h1c] (by simp at hl ⊢; omega) a hh
                | cons h2c rest2 =>
                    by_cases hhex : isHexDigitNat h1c.toNat = true ∧
                        isHexDigitNat h2c.toNat = true
                    · rw [parseAtoms_esc h1c h2c rest2 hhex.1 hhex.2] at ha
                      rcases List.mem_cons.1 ha with hh | hh
                      · rw [hh]
                        show hexVal h1c * 16 + hexVal h2c < 256
                        have hv1 := hexVal_lt h1c hhex.1
                        have hv2 := hexVal_lt h2c hhex.2
                        omega
                      · exact ih rest2 (by simp at hl ⊢; omega) a hh
                    · rw [parseAtoms_pct_nonhex h1c h2c rest2 hhex] at ha
                      rcases List.mem_cons.1 ha with hh | hh
                      · rw [hh]; trivial
                      · exact ih (h1c :: h2c :: rest2)
                          (by simp at hl ⊢; omega) a hh
          · rw [parseAtoms_cons_ne c rest hc] at ha
            rcases List.mem_cons.1 ha with hh | hh
            · rw [hh]; trivial
            · exact ih rest (by simp at hl ⊢; omega) a hh

theorem unres_pchar (n : Nat) (h : isUnresNat n = true) :
    isPcharNat n = true := by
  unfold isPcharNat
  rw [h]
  rfl

theorem parse_render (atoms : List PAtom) (h : ∀ a ∈ atoms, goodAtom a) :
    parseAtoms (atoms.flatMap renderAtom) = atoms := by
  induction atoms with
  | nil => rw [List.flatMap_nil, parseAtoms_nil]
  | cons a tl ih =>
      have ha := h a (List.mem_cons_self a tl)
      have htl : ∀ b ∈ tl, goodAtom b :=
        fun b hb => h b (List.mem_cons_of_mem a hb)
      cases a with
      | lit c =>
          have hc : c ≠ '%' := by
            intro he
            have ha' : needsEscapeB c = false := ha
            rw [he] at ha'
            exact absurd ha' (by decide)
          show parseAtoms (c :: tl.flatMap renderAtom) = _
          rw [parseAtoms_cons_ne c _ hc, ih htl]
      | esc v =>
          obtain ⟨hv256, _⟩ := ha
          show parseAtoms ('%' :: hexUpper (v / 16) :: hexUpper (v % 16) ::
            tl.flatMap renderAtom) = _
          rw [parseAtoms_esc _ _ _ (isHexDigit_hexUpper _ (by omega))
            (isHexDigit_hexUpper _ (by omega))]
          rw [hexVal_hexUpper _ (by omega), hexVal_hexUpper _ (by omega),
            ih htl]
          have hdm : v / 16 * 16 + v % 16 = v := by omega
          rw [hdm]

theorem normAtom_good (a : PAtom) (hb : escBound a) : goodAtom (normAtom a) := by
  cases a with
  | lit c =>
      simp only [normAtom]
      by_cases h : needsEscapeB c = true
      · rw [if_pos h]
        unfold needsEscapeB at h
        rw [Bool.and_eq_true, decide_eq_true_iff] at h
        obtain ⟨h128, hp⟩ := h
        rw [Bool.not_eq_true'] at hp
        refine ⟨by omega, ?_⟩
        cases hu : isUnresNat c.toNat with
        | false => rfl
        | true => rw [unres_pchar _ hu] at hp; cases hp
      · rw [if_neg h]
        exact Bool.eq_false_iff.mpr h
  | esc v =>
      simp only [normAtom]
      by_cases h : isUnresNat v = true
      · rw [if_pos h]
        show needsEscapeB (Char.ofNat v) = false
        have hrange : v < 55296 := by
          unfold isUnresNat at h
          rw [decide_eq_true_iff] at h
          omega
        unfold needsEscapeB
        rw [toNat_ofNat_valid hrange, unres_pchar v h]
        simp
      · rw [if_neg h]
        exact ⟨hb, Bool.eq_false_iff.mpr h⟩

theorem normAtom_id (a : PAtom) (h : goodAtom a) : normAtom a = a := by
  cases a with
  | lit c =>
      have h' : needsEscapeB c = false := h
      simp only [normAtom]
      rw [if_neg (by simp [h'])]
  | esc v =>
      simp only [normAtom]
      rw [if_neg (by simp [h.2])]

theorem normalizeEscapes_data (s : String) :
    (normalizeEscapes s).data =
      ((parseAtoms s.data).map normAtom).flatMap renderAtom := rfl

theorem map_normAtom_good (L : List PAtom) (hL : ∀ a ∈ L, goodAtom a) :
    L.map normAtom = L := by
  induction L with
  | nil => rfl
  | cons a t ih =>
      rw [List.map_cons, normAtom_id a (hL a (List.mem_cons_self a t)),
        ih (fun x hx => hL x (List.mem_cons_of_mem a hx))]

theorem normalizeEscapes_idem (s : String) :
    normalizeEscapes (normalizeEscapes s) = normalizeEscapes s := by
  have hgood : ∀ a ∈ (parseAtoms s.data).map normAtom, goodAtom a := by
    intro a ha
    obtain ⟨b, hb, rfl⟩ := List.mem_map.1 ha
    exact normAtom_good b
      (parse_escBound s.data.length s.data (Nat.le_refl _) b hb)
  have hparse : parseAtoms (normalizeEscapes s).data =
      (parseAtoms s.data).map normAtom := by
    rw [normalizeEscapes_data]
    exact parse_render _ hgood
  show String.mk (((parseAtoms (normalizeEscapes s).data).map
    normAtom).flatMap renderAtom) = normalizeEscapes s
  rw [hparse, map_normAtom_good _ hgood]
  rfl

theorem mem_collapseSlashes (l : List String) (x : String)
    (h : x ∈ collapseSlashes l) : x ∈ l ∨ x = "" := by
  simp only [collapseSlashes] at h
  by_cases hl : l.getLast? = some ""
  · rw [if_pos hl] at h
    rcases List.mem_append.1 h with h1 | h1
    · exact Or.inl (List.mem_of_mem_filter h1)
    · simp at h1
      exact Or.inr h1
  · rw [if_neg hl] at h
    exact Or.inl (List.mem_of_mem_filter h)

theorem mem_rmDotsAux :
    ∀ (l acc : List String) (x : String),
      x ∈ rmDotsAux acc l → x ∈ acc ∨ x ∈ l ∨ x = "" := by
  intro l
  induction l with
  | nil =>
      intro acc x hx
      unfold rmDotsAux at hx
      exact Or.inl (List.mem_reverse.1 hx)
  | cons s rest ih =>
      intro acc x hx
      unfold rmDotsAux at hx
      by_cases hd : s = "."
      · rw [if_pos hd] at hx
        by_cases hr : rest = []
        · rw [if_pos hr] at hx
          rcases List.mem_append.1 hx with h1 | h1
          · exact Or.inl (List.mem_reverse.1 h1)
          · simp at h1
            exact Or.inr (Or.inr h1)
        · rw [if_neg hr] at hx
          rcases ih acc x hx with h | h | h
          · exact Or.inl h
          · exact Or.inr (Or.inl (List.mem_cons_of_mem _ h))
          · exact Or.inr (Or.inr h)
      · rw [if_neg hd] at hx
        by_cases hdd : s = ".."
        · rw [if_pos hdd] at hx
          by_cases hr : rest = []
          · rw [if_pos hr] at hx
            rcases List.mem_append.1 hx with h1 | h1
            · exact Or.inl ((List.drop_sublist 1 acc).mem
                (List.mem_reverse.1 h1))
            · simp at h1
              exact Or.inr (Or.inr h1)
          · rw [if_neg hr] at hx
            rcases ih (acc.drop 1) x hx with h | h | h
            · exact Or.inl ((List.drop_sublist 1 acc).mem h)
            · exact Or.inr (Or.inl (List.mem_cons_of_mem _ h))
            · exact Or.inr (Or.inr h)
        · rw [if_neg hdd] at hx
          rcases ih (s :: acc) x hx with h | h | h
          · rcases List.mem_cons.1 h with h2 | h2
            · rw [h2]
              exact Or.inr (Or.inl (List.mem_cons_self _ _))
            · exact Or.inl h2
          · exact Or.inr (Or.inl (List.mem_cons_of_mem _ h))
          · exact Or.inr (Or.inr h)

theorem normalizeEscapes_empty : normalizeEscapes "" = "" := by
  unfold normalizeEscapes
  rw [show ("" : String).data = [] from rfl, parseAtoms_nil, List.map_nil,
    List.flatMap_nil]

theorem map_normalizeEscapes_fixed (L : List String)
    (hL : ∀ x ∈ L, normalizeEscapes x = x) : L.map normalizeEscapes = L := by
  induction L with
  | nil => rfl
  | cons a t ih =>
      rw [List.map_cons, hL a (List.mem_cons_self a t),
        ih (fun x hx => hL x (List.mem_cons_of_mem a hx))]

theorem pathNormalize_idem (l : List String) :
    removeDotSegments (collapseSlashes
      ((removeDotSegments (collapseSlashes (l.map normalizeEscapes))).map
        normalizeEscapes)) =
    removeDotSegments (collapseSlashes (l.map normalizeEscapes)) := by
  have hfix : ∀ x ∈ removeDotSegments (collapseSlashes
      (l.map normalizeEscapes)), normalizeEscapes x = x := by
    intro x hx
    unfold removeDotSegments at hx
    rcases mem_rmDotsAux _ [] x hx with h | h | h
    · cases h
    · rcases mem_collapseSlashes _ x h with h2 | h2
      · obtain ⟨y, _, rfl⟩ := List.mem_map.1 h2
        exact normalizeEscapes_idem y
      · rw [h2]
        exact normalizeEscapes_empty
    · rw [h]
      exact normalizeEscapes_empty
  rw [map_normalizeEscapes_fixed _ hfix]
  have h1 := collapseSlashes_tailOnlyEmpty (l.map normalizeEscapes)
  have h2 := rmDotsAux_shape (collapseSlashes (l.map normalizeEscapes)) []
    (by simp) h1
  unfold removeDotSegments
  rw [collapseSlashes_eq_self _ h2.1]
  rw [rmDotsAux_noDots _ [] h2.2]
  simp

instance : IsTotal (String × String) qLE where
  total a b := by
    rcases lt_trichotomy a.1 b.1 with h | h | h
    · exact Or.inl (Or.inl h)
    · rcases le_total a.2 b.2 with h2 | h2
      · exact Or.inl (Or.inr ⟨h, h2⟩)
      · exact Or.inr (Or.inr ⟨h.symm, h2⟩)
    · exact Or.inr (Or.inl h)

instance : IsTrans (String × String) qLE where
  trans a b c hab hbc := by
    rcases hab with h1 | ⟨h1, h1'⟩
    · rcases hbc with h2 | ⟨h2, _⟩
      · exact Or.inl (lt_trans h1 h2)
      · exact Or.inl (h2 ▸ h1)
    · rcases hbc with h2 | ⟨h2, h2'⟩
      · exact Or.inl (h1 ▸ h2)
      · exact Or.inr ⟨h1.trans h2, le_trans h1' h2'⟩

theorem sortQuery_idem (q : List (String × String)) :
    sortQuery (sortQuery q) = sortQuery q :=
  List.Sorted.insertionSort_eq (List.sorted_insertionSort qLE q)

theorem port_norm_idem (s : String) (p : Option Nat) :
    (if isDefaultPort s (if isDefaultPort s p then none else p) then none
     else (if isDefaultPort s p then none else p)) =
    (if isDefaultPort s p then none else p) := by
  by_cases h : isDefaultPort s p = true
  · rw [if_pos h]
    have hnone : isDefaultPort s none = false := rfl
    rw [hnone]
    simp
  · rw [if_neg h, if_neg h]

theorem normalizeURL_idem (u : URLRec) :
    normalizeURL (normalizeURL u) = normalizeURL u := by
  unfold normalizeURL
  simp only [lowerString_idem, sortQuery_idem, pathNormalize_idem,
    port_norm_idem]

/-! ### Claim theorems -/

/-- C6: canonicalization is idempotent — for every URL `u`,
`canonicalize(canonicalize(u)) == canonicalize(u)` where
`canonicalize` is the normalization applied by `Enqueue`
(`normalizeURL`). -/
theorem claim6_canonicalize_idempotent (u : URLRec) :
    normalizeURL (normalizeURL u) = normalizeURL u :=
  normalizeURL_idem u

/-- C3: if `scope.check` on the canonicalized outlink is false,
`Enqueue` returns success (`nil`) with no side effects: the state
(store and queue) is unchanged. -/
theorem claim3_scope_false_no_side_effects
    (addErr : Option GoErr) (scope : Scope) (st : CrawlState)
    (link : Outlink) (depth : Int)
    (h : scope { link with URL := normalizeURL link.URL } depth = false) :
    enqueue addErr scope st link depth = (st, none) := by
  unfold enqueue
  simp [h]

/-- Witness for C3 at a concrete rejecting scope and URL. -/
theorem claim3_witness :
    enqueue none (fun _ _ => false) ⟨[], []⟩
      ⟨⟨"http", "a", none, [], [], ""⟩, TagPrimary⟩ 0 = (⟨[], []⟩, none) :=
  claim3_scope_false_no_side_effects none (fun _ _ => false) ⟨[], []⟩
    ⟨⟨"http", "a", none, [], [], ""⟩, TagPrimary⟩ 0 rfl

/-- C4: `HandleRetries(H)` returns `RetryRequest` without invoking `H`
exactly when the fetch errored, or the status is 429, or the status is
`≥ 500`; in all other cases it forwards to `H` with the fetch error
replaced by nil (a `success` input) and returns `H`'s result. -/
theorem claim4_handle_retries
    (wrap : Handler) (st : CrawlState) (u : String) (depth : Int)
    (fr : FetchResult) :
    (∀ e, fr = FetchResult.failure e →
        HandleRetries wrap st u depth fr = (st, [], some GoErr.retryRequest))
    ∧ (∀ r, fr = FetchResult.success r →
        (r.StatusCode = 429 ∨ r.StatusCode ≥ 500) →
        HandleRetries wrap st u depth fr = (st, [], some GoErr.retryRequest))
    ∧ (∀ r, fr = FetchResult.success r →
        r.StatusCode ≠ 429 → r.StatusCode < 500 →
        HandleRetries wrap st u depth fr =
          wrap st u depth (FetchResult.success r)) := by
  refine ⟨?_, ?_, ?_⟩
  · intro e he
    subst he
    rfl
  · intro r hr hcond
    subst hr
    have : (r.StatusCode == 429 || decide (r.StatusCode ≥ 500)) = true := by
      rcases hcond with h | h
      · simp [h]
      · simp [h]
    simp only [HandleRetries]
    rw [if_pos this]
  · intro r hr h429 h500
    subst hr
    have : (r.StatusCode == 429 || decide (r.StatusCode ≥ 500)) = false := by
      simp [h429]
      omega
    simp only [HandleRetries]
    rw [if_neg (by simp [this])]

/-- Witness for C4 at a concrete fetch failure. -/
theorem claim4_witness :
    HandleRetries (fun st _ _ _ => (st, [], none)) ⟨[], []⟩ "http://a/" 0
      (FetchResult.failure (GoErr.other "connection refused")) =
      (⟨[], []⟩, [], some GoErr.retryRequest) :=
  (claim4_handle_retries (fun st _ _ _ => (st, [], none)) ⟨[], []⟩ "http://a/" 0
      (FetchResult.failure (GoErr.other "connection refused"))).1
    (GoErr.other "connection refused") rfl

/-- C5: `FollowRedirects(H)` invokes `H` first and propagates `H`'s
error if non-nil; if the fetch errored it returns success; for a
response with status in `[300, 400)` and a non-empty `Location`
header it resolves the header against the request URL and makes
exactly one `Enqueue` call with the resolved URL, tag `Primary` and
`depth + 1` (its trace is `H`'s trace plus that one call); a
malformed `Location` (a failing resolve) is ignored. -/
theorem claim5_follow_redirects
    (addErr : Option GoErr) (scope : Scope)
    (resolve : URLRec → String → Option URLRec) (wrap : Handler)
    (st : CrawlState) (u : String) (depth : Int) (fr : FetchResult)
    (st1 : CrawlState) (calls : List EnqCall) (herr : Option GoErr)
    (hw : wrap st u depth fr = (st1, calls, herr)) :
    (∀ e, herr = some e →
        FollowRedirects addErr scope resolve wrap st u depth fr =
          (st1, calls, some e))
    ∧ (herr = none → ∀ e, fr = FetchResult.failure e →
        FollowRedirects addErr scope resolve wrap st u depth fr =
          (st1, calls, none))
    ∧ (herr = none → ∀ r, fr = FetchResult.success r →
        300 ≤ r.StatusCode → r.StatusCode < 400 →
        headerGet r.Headers "Location" ≠ "" →
        (∀ lu, resolve r.RequestURL (headerGet r.Headers "Location") = some lu →
            FollowRedirects addErr scope resolve wrap st u depth fr =
              ((enqueue addErr scope st1 ⟨lu, TagPrimary⟩ (depth + 1)).1,
               calls ++ [⟨⟨lu, TagPrimary⟩, depth + 1⟩],
               (enqueue addErr scope st1 ⟨lu, TagPrimary⟩ (depth + 1)).2))
        ∧ (resolve r.RequestURL (headerGet r.Headers "Location") = none →
            FollowRedirects addErr scope resolve wrap st u depth fr =
              (st1, calls, none))) := by
  refine ⟨?_, ?_, ?_⟩
  · intro e he
    subst he
    simp only [FollowRedirects, hw]
  · intro hn e hf
    subst hn
    subst hf
    simp only [FollowRedirects, hw]
  · intro hn r hr h300 h400 hloc
    subst hn
    subst hr
    have hcond : (decide (r.StatusCode ≥ 300) && decide (r.StatusCode < 400) &&
        ¬ headerGet r.Headers "Location" == "") = true := by
      simp [h300, h400, hloc]
    constructor
    · intro lu hres
      simp only [FollowRedirects, hw]
      rw [if_pos hcond, hres]
    · intro hres
      simp only [FollowRedirects, hw]
      rw [if_pos hcond, hres]

/-- Witness for C5: a handler error is propagated unchanged. -/
theorem claim5_witness :
    FollowRedirects none (fun _ _ => true) (fun _ _ => none)
      (fun st _ _ _ => (st, [], some (GoErr.other "boom")))
      ⟨[], []⟩ "http://a/" 0
      (FetchResult.failure (GoErr.other "net down")) =
      (⟨[], []⟩, [], some (GoErr.other "boom")) :=
  (claim5_follow_redirects none (fun _ _ => true) (fun _ _ => none)
      (fun st _ _ _ => (st, [], some (GoErr.other "boom")))
      ⟨[], []⟩ "http://a/" 0 (FetchResult.failure (GoErr.other "net down"))
      ⟨[], []⟩ [] (some (GoErr.other "boom")) rfl).1
    (GoErr.other "boom") rfl

/-- C2: `handleURL` classifies the handler's result — `nil` writes the
updated `URLInfo` record under `url/<canonical>` and returns success
to the queue; `RetryRequest` returns retry without writing the
record; any other handler error aborts the process (`log.Fatalf`). -/
theorem claim2_handler_result_classification
    (fetcher : String → FetchResult) (handler : Handler) (now : Nat)
    (st : CrawlState) (item : queueItem)
    (st1 : CrawlState) (calls : List EnqCall) (res : Option GoErr)
    (hh : handler st item.URL item.Depth (fetcher item.URL) = (st1, calls, res)) :
    (res = none → handleURL fetcher handler now st item =
        HandleOutcome.done
          ⟨storePut st1.store (urlKey item.URL)
              (encodeURLInfo (updatedInfo fetcher now st item)),
           st1.queue⟩ none)
    ∧ (res = some GoErr.retryRequest →
        handleURL fetcher handler now st item =
          HandleOutcome.done st1 (some GoErr.retryRequest))
    ∧ (∀ e, res = some (GoErr.other e) →
        handleURL fetcher handler now st item =
          HandleOutcome.fatal (GoErr.other e)) := by
  refine ⟨?_, ?_, ?_⟩
  · intro hres
    subst hres
    simp only [handleURL, hh]
  · intro hres
    subst hres
    simp only [handleURL, hh]
  · intro e hres
    subst hres
    simp only [handleURL, hh]

/-- Witness for C2: a handler returning `nil` on a fetch failure
writes the record. -/
theorem claim2_witness :
    handleURL (fun _ => FetchResult.failure (GoErr.other "net down"))
      (fun st _ _ _ => (st, [], none)) 7 ⟨[], []⟩ ⟨"http://a/", 0⟩ =
      HandleOutcome.done
        ⟨storePut [] (urlKey "http://a/")
          (encodeURLInfo (updatedInfo
            (fun _ => FetchResult.failure (GoErr.other "net down")) 7
            ⟨[], []⟩ ⟨"http://a/", 0⟩)), []⟩ none :=
  (claim2_handler_result_classification
      (fun _ => FetchResult.failure (GoErr.other "net down"))
      (fun st _ _ _ => (st, [], none)) 7 ⟨[], []⟩ ⟨"http://a/", 0⟩
      ⟨[], []⟩ [] none rfl).1 rfl

/-- C7 counterexample: on a malformed frontier payload `handleJob`
returns success to the queue (the entry is removed) but writes no
`url/*` record at all — the resulting state still has an empty store,
against the claim that "the URL is recorded with its status". -/
theorem claim7_counterexample :
    decodeQueueItem [Token.nat 3] = none ∧
      handleJob (fun _ => FetchResult.failure (GoErr.other "unreachable"))
        (fun st _ _ _ => (st, [], none)) 0 ⟨[], []⟩ [Token.nat 3] =
        HandleOutcome.done ⟨[], []⟩ none := by
  constructor
  · rfl
  · rfl

/-- C7 (amended): when a dequeued frontier entry's payload fails to
decode as a `queueItem`, the error is permanent for that entry:
success is returned to the queue (the entry is removed) and the state
is unchanged — in particular no `url/*` record is written (the
malformed payload names no URL). -/
theorem claim7_malformed_payload_removed
    (fetcher : String → FetchResult) (handler : Handler) (now : Nat)
    (st : CrawlState) (data : Bytes)
    (h : decodeQueueItem data = none) :
    handleJob fetcher handler now st data = HandleOutcome.done st none := by
  simp [handleJob, h]

/-- Witness for the amended C7 at a concrete malformed payload. -/
theorem claim7_witness :
    handleJob (fun _ => FetchResult.failure (GoErr.other "unreachable"))
      (fun st _ _ _ => (st, [], none)) 5 ⟨[("k", [])], []⟩ [Token.ch 'x'] =
      HandleOutcome.done ⟨[("k", [])], []⟩ none :=
  claim7_malformed_payload_removed
    (fun _ => FetchResult.failure (GoErr.other "unreachable"))
    (fun st _ _ _ => (st, [], none)) 5 ⟨[("k", [])], []⟩ [Token.ch 'x'] rfl

/-- C8: the object store adapter round-trips values — after
`PutObj(k, v)`, `GetObj(k)` through the matching shape yields `v`
(for both record shapes the engine stores), and `GetObj` of a key
never written is the distinguished not-found error. -/
theorem claim8_putobj_getobj_roundtrip :
    (∀ (s : Store) (k : String) (v : URLInfo),
        getObj decodeURLInfo (storePut s k (encodeURLInfo v)) k = Except.ok v)
    ∧ (∀ (s : Store) (k : String) (it : queueItem),
        getObj decodeQueueItem (storePut s k (encodeQueueItem it)) k =
          Except.ok it)
    ∧ (∀ (s : Store) (k : String), storeGet s k = none →
        getObj decodeURLInfo s k = Except.error GetErr.notFound) := by
  refine ⟨?_, ?_, ?_⟩
  · intro s k v
    simp only [getObj, storeGet_put_same, decodeURLInfo_encode]
  · intro s k it
    simp only [getObj, storeGet_put_same, decodeQueueItem_encode]
  · intro s k h
    simp only [getObj, h]

/-- Witness for C8's not-found case at a concrete store and key. -/
theorem claim8_witness :
    getObj decodeURLInfo [("url/http://a/", encodeURLInfo emptyURLInfo)]
      "url/http://b/" = Except.error GetErr.notFound :=
  claim8_putobj_getobj_roundtrip.2.2
    [("url/http://a/", encodeURLInfo emptyURLInfo)] "url/http://b/" rfl

/-- C9: if the queue `Add` fails during `Enqueue` of a not-yet-known
in-scope URL, `Enqueue` returns that error and the `url/<canonical>`
record is not written (the state is unchanged), so a subsequent
`Enqueue` of the same canonical URL repeats the lookup and the `Add`:
with a succeeding `Add` it appends the frontier entry and writes the
record. -/
theorem claim9_add_failure_keeps_url_unknown
    (scope : Scope) (st : CrawlState) (link : Outlink) (depth : Int)
    (e : GoErr)
    (hs : scope { link with URL := normalizeURL link.URL } depth = true)
    (hn : storeGet st.store (urlKey (urlString (normalizeURL link.URL))) = none) :
    enqueue (some e) scope st link depth = (st, some e)
    ∧ (enqueue none scope st link depth).1.queue =
        st.queue ++ [(hostPort (normalizeURL link.URL),
          encodeQueueItem ⟨urlString (normalizeURL link.URL), depth⟩)]
    ∧ getURLInfo (enqueue none scope st link depth).1.store
        (urlKey (urlString (normalizeURL link.URL))) = Except.ok emptyURLInfo
    ∧ (enqueue none scope st link depth).2 = none := by
  have hget : getURLInfo st.store (urlKey (urlString (normalizeURL link.URL))) =
      Except.error GetErr.notFound := by
    simp only [getURLInfo, getObj, hn]
  refine ⟨?_, ?_, ?_, ?_⟩
  · simp only [enqueue, hs]
    rw [hget]
    rfl
  · simp only [enqueue, hs]
    rw [hget]
    simp
  · simp only [enqueue, hs]
    rw [hget]
    simp [getURLInfo, getObj, storeGet_put_same, decodeURLInfo_encode]
  · simp only [enqueue, hs]
    rw [hget]
    simp

/-- Witness for C9 at a concrete failing `Add`. -/
theorem claim9_witness :
    enqueue (some (GoErr.other "queue add failed")) (fun _ _ => true)
      ⟨[], []⟩ ⟨⟨"http", "a", none, [], [], ""⟩, TagPrimary⟩ 0 =
      (⟨[], []⟩, some (GoErr.other "queue add failed")) :=
  (claim9_add_failure_keeps_url_unknown (fun _ _ => true) ⟨[], []⟩
      ⟨⟨"http", "a", none, [], [], ""⟩, TagPrimary⟩ 0
      (GoErr.other "queue add failed") rfl rfl).1

/-! ### Lemmas on records with empty Error fields -/

theorem storeErrorsEmpty_put (s : Store) (k : String) (v : Bytes)
    (hs : storeErrorsEmpty s)
    (hv : ∀ i, decodeURLInfo v = some i → i.Error = "") :
    storeErrorsEmpty (storePut s k v) := by
  intro p hp i hdec
  rcases List.mem_cons.1 hp with h1 | h1
  · rw [h1] at hdec
    exact hv i hdec
  · exact hs p (List.mem_of_mem_filter h1) i hdec


theorem storeGet_mem (s : Store) (k : String) (b : Bytes)
    (h : storeGet s k = some b) : ∃ q ∈ s, q.2 = b := by
  unfold storeGet at h
  cases hfind : s.find? (fun p => p.1 == k) with
  | none => rw [hfind] at h; simp at h
  | some q =>
      rw [hfind] at h
      simp at h
      exact ⟨q, List.mem_of_find?_eq_some hfind, h⟩

theorem getObj_ok_elim {α : Type} (decode : Bytes → Option α) (s : Store)
    (k : String) (v : α) (hg : getObj decode s k = Except.ok v) :
    ∃ b, storeGet s k = some b ∧ decode b = some v := by
  unfold getObj at hg
  split at hg
  · cases hg
  · next b hsg =>
      split at hg
      · cases hg
      · next w hdec =>
          have hwv : w = v := by injection hg
          exact ⟨b, hsg, hwv ▸ hdec⟩

theorem storeErrorsEmpty_get (s : Store) (k : String) (i : URLInfo)
    (h : storeErrorsEmpty s) (hg : getURLInfo s k = Except.ok i) :
    i.Error = "" := by
  obtain ⟨b, hsg, hdec⟩ := getObj_ok_elim decodeURLInfo s k i hg
  obtain ⟨q, hmem, hq2⟩ := storeGet_mem s k b hsg
  exact h q hmem i (hq2 ▸ hdec)

/-! ### Case equations for `enqueue` -/

theorem enqueue_scope_false (addErr : Option GoErr) (scope : Scope)
    (st : CrawlState) (link : Outlink) (depth : Int)
    (h : scope { link with URL := normalizeURL link.URL } depth = false) :
    enqueue addErr scope st link depth = (st, none) := by
  simp [enqueue, h]

theorem enqueue_known (addErr : Option GoErr) (scope : Scope)
    (st : CrawlState) (link : Outlink) (depth : Int) (i : URLInfo)
    (h : getURLInfo st.store (urlKey (urlString (normalizeURL link.URL))) =
      Except.ok i) :
    enqueue addErr scope st link depth = (st, none) := by
  cases hsc : scope { link with URL := normalizeURL link.URL } depth with
  | false => exact enqueue_scope_false addErr scope st link depth hsc
  | true =>
      simp only [enqueue, hsc]
      rw [h]
      rfl

theorem enqueue_new_addErr (scope : Scope) (st : CrawlState) (link : Outlink)
    (depth : Int) (e : GoErr) (ge : GetErr)
    (hsc : scope { link with URL := normalizeURL link.URL } depth = true)
    (hg : getURLInfo st.store (urlKey (urlString (normalizeURL link.URL))) =
      Except.error ge) :
    enqueue (some e) scope st link depth = (st, some e) := by
  simp only [enqueue, hsc]
  rw [hg]
  rfl

theorem enqueue_new_none (scope : Scope) (st : CrawlState) (link : Outlink)
    (depth : Int) (ge : GetErr)
    (hsc : scope { link with URL := normalizeURL link.URL } depth = true)
    (hg : getURLInfo st.store (urlKey (urlString (normalizeURL link.URL))) =
      Except.error ge) :
    enqueue none scope st link depth =
      (⟨storePut st.store (urlKey (urlString (normalizeURL link.URL)))
          (encodeURLInfo emptyURLInfo),
        st.queue ++ [(hostPort (normalizeURL link.URL),
          encodeQueueItem ⟨urlString (normalizeURL link.URL), depth⟩)]⟩,
       none) := by
  simp only [enqueue, hsc]
  rw [hg]
  rfl

theorem updatedInfo_error_empty
    (fetcher : String → FetchResult) (now : Nat) (st : CrawlState)
    (item : queueItem) (h : storeErrorsEmpty st.store) :
    (updatedInfo fetcher now st item).Error = "" := by
  unfold updatedInfo
  cases hg : getURLInfo st.store (urlKey item.URL) with
  | ok i =>
      have hie : i.Error = "" := storeErrorsEmpty_get _ _ i h hg
      cases hf : fetcher item.URL with
      | success r => simp [hg, hf, hie]
      | failure e => simp [hg, hf, hie]
  | error e =>
      cases hf : fetcher item.URL with
      | success r => simp [hg, hf, emptyURLInfo]
      | failure e2 => simp [hg, hf, emptyURLInfo]

/-- C10: the engine never assigns the `Error` field of `URLInfo`.
The sentinel record `Enqueue` writes has an empty `Error`; `Enqueue`
preserves "every record in the store decodes with an empty `Error`";
`handleURL` writes a record whose `Error` is empty (on the
fetch-success and fetch-failure paths alike) and preserves the
invariant whenever the handler's own writes did. -/
theorem claim10_error_field_never_assigned :
    emptyURLInfo.Error = ""
    ∧ (∀ (addErr : Option GoErr) (scope : Scope) (st : CrawlState)
          (link : Outlink) (depth : Int), storeErrorsEmpty st.store →
        storeErrorsEmpty (enqueue addErr scope st link depth).1.store)
    ∧ (∀ (fetcher : String → FetchResult) (now : Nat) (st : CrawlState)
          (item : queueItem), storeErrorsEmpty st.store →
        (updatedInfo fetcher now st item).Error = "")
    ∧ (∀ (fetcher : String → FetchResult) (handler : Handler) (now : Nat)
          (st : CrawlState) (item : queueItem) (st1 : CrawlState)
          (calls : List EnqCall) (res : Option GoErr)
          (st' : CrawlState) (out : Option GoErr),
        storeErrorsEmpty st.store →
        handler st item.URL item.Depth (fetcher item.URL) = (st1, calls, res) →
        storeErrorsEmpty st1.store →
        handleURL fetcher handler now st item = HandleOutcome.done st' out →
        storeErrorsEmpty st'.store) := by
  refine ⟨rfl, ?_, updatedInfo_error_empty, ?_⟩
  · intro addErr scope st link depth hst
    cases hsc : scope { link with URL := normalizeURL link.URL } depth with
    | false => rw [enqueue_scope_false addErr scope st link depth hsc]; exact hst
    | true =>
        cases hg : getURLInfo st.store
            (urlKey (urlString (normalizeURL link.URL))) with
        | ok i => rw [enqueue_known addErr scope st link depth i hg]; exact hst
        | error e =>
            cases addErr with
            | some e2 =>
                rw [enqueue_new_addErr scope st link depth e2 e hsc hg]
                exact hst
            | none =>
                rw [enqueue_new_none scope st link depth e hsc hg]
                refine storeErrorsEmpty_put _ _ _ hst ?_
                intro i hdec
                rw [decodeURLInfo_encode] at hdec
                have hi : emptyURLInfo = i := by injection hdec
                rw [← hi]
                rfl
  · intro fetcher handler now st item st1 calls res st' out hst hh h1 hdone
    unfold handleURL at hdone
    rw [hh] at hdone
    cases res with
    | none =>
        have hst' : st' = ⟨storePut st1.store (urlKey item.URL)
            (encodeURLInfo (updatedInfo fetcher now st item)), st1.queue⟩ := by
          cases hdone
          rfl
        rw [hst']
        refine storeErrorsEmpty_put _ _ _ h1 ?_
        intro i hdec
        rw [decodeURLInfo_encode] at hdec
        have hi : updatedInfo fetcher now st item = i := by injection hdec
        rw [← hi]
        exact updatedInfo_error_empty fetcher now st item hst
    | some ge =>
        cases ge with
        | retryRequest =>
            have hst' : st' = st1 := by
              cases hdone
              rfl
            rw [hst']
            exact h1
        | other e => cases hdone

/-- Witness for C10: the invariant holds at a concrete enqueue from
the empty store. -/
theorem claim10_witness :
    storeErrorsEmpty (enqueue none (fun _ _ => true) ⟨[], []⟩
      ⟨⟨"http", "a", none, [], [], ""⟩, TagPrimary⟩ 0).1.store :=
  claim10_error_field_never_assigned.2.1 none (fun _ _ => true) ⟨[], []⟩
    ⟨⟨"http", "a", none, [], [], ""⟩, TagPrimary⟩ 0
    (fun p hp => absurd hp (List.not_mem_nil p))

/-! ### Dedupe counting lemmas -/

theorem urlKey_ne (c c' : String) (h : c' ≠ c) : urlKey c' ≠ urlKey c := by
  intro he
  apply h
  have hd := congrArg String.data he
  simp only [urlKey, String.data_append] at hd
  have hc := List.append_cancel_left hd
  cases c' with
  | mk d1 =>
      cases c with
      | mk d2 =>
          simp only at hc
          rw [hc]

theorem filter_filter_imp {α : Type} (l : List α) (p q : α → Bool)
    (h : ∀ x, q x = true → p x = true) :
    (l.filter p).filter q = l.filter q := by
  induction l with
  | nil => rfl
  | cons a l ih =>
      cases hq : q a with
      | true =>
          rw [List.filter_cons_of_pos (h a hq), List.filter_cons_of_pos hq,
            List.filter_cons_of_pos hq, ih]
      | false =>
          cases hp : p a with
          | true =>
              rw [List.filter_cons_of_pos hp,
                List.filter_cons_of_neg (by simp [hq]),
                List.filter_cons_of_neg (by simp [hq]), ih]
          | false =>
              rw [List.filter_cons_of_neg (by simp [hp]),
                List.filter_cons_of_neg (by simp [hq]), ih]

theorem filter_filter_disj {α : Type} (l : List α) (p q : α → Bool)
    (h : ∀ x, q x = true → p x = false) :
    (l.filter p).filter q = [] := by
  rw [List.filter_eq_nil_iff]
  intro a ha
  intro hq
  have hp := List.of_mem_filter ha
  rw [h a hq] at hp
  cases hp

theorem storeCount_put_same (s : Store) (k : String) (v : Bytes) :
    storeCount (storePut s k v) k = 1 := by
  unfold storeCount storePut
  rw [List.filter_cons_of_pos (by simp)]
  rw [filter_filter_disj _ _ _ (by
    intro x hx
    simp only [beq_iff_eq] at hx
    simp [hx])]
  rfl

theorem storeCount_put_other (s : Store) (k k' : String) (v : Bytes)
    (h : k' ≠ k) : storeCount (storePut s k v) k' = storeCount s k' := by
  unfold storeCount storePut
  rw [List.filter_cons_of_neg (by
    simp only [beq_iff_eq]
    exact fun he => h he.symm)]
  rw [filter_filter_imp _ _ _ (by
    intro x hx
    simp only [beq_iff_eq] at hx
    have : ¬ x.1 = k := fun he => h (hx ▸ he)
    simp [this])]

theorem storeGet_none_of_count_zero (s : Store) (k : String)
    (h : storeCount s k = 0) : storeGet s k = none := by
  unfold storeCount at h
  rw [List.length_eq_zero, List.filter_eq_nil_iff] at h
  unfold storeGet
  rw [List.find?_eq_none.2 (fun x hx => h x hx)]
  rfl

theorem getURLInfo_put_other (s : Store) (k k' : String) (v : Bytes)
    (h : k' ≠ k) : getURLInfo (storePut s k v) k' = getURLInfo s k' := by
  simp only [getURLInfo, getObj, storeGet_put_other s k k' v h]

theorem queueCountFor_append (q1 q2 : List (String × Bytes)) (c : String) :
    queueCountFor (q1 ++ q2) c = queueCountFor q1 c + queueCountFor q2 c := by
  simp [queueCountFor, List.filter_append]

theorem queueCountFor_singleton (tag : String) (d : Int) (c' c : String) :
    queueCountFor [(tag, encodeQueueItem ⟨c', d⟩)] c =
      if c' = c then 1 else 0 := by
  unfold queueCountFor
  by_cases h : c' = c
  · rw [if_pos h]
    rw [List.filter_cons_of_pos (by
      simp only [decodeQueueItem_encode]
      simp [h])]
    rfl
  · rw [if_neg h]
    rw [List.filter_cons_of_neg (by
      simp only [decodeQueueItem_encode]
      simp [h])]
    rfl

theorem enqueue_other_canon (scope : Scope) (st : CrawlState) (link : Outlink)
    (depth : Int) (c : String)
    (hne : urlString (normalizeURL link.URL) ≠ c) :
    storeCount (enqueue none scope st link depth).1.store (urlKey c) =
      storeCount st.store (urlKey c)
    ∧ queueCountFor (enqueue none scope st link depth).1.queue c =
      queueCountFor st.queue c
    ∧ getURLInfo (enqueue none scope st link depth).1.store (urlKey c) =
      getURLInfo st.store (urlKey c) := by
  cases hsc : scope { link with URL := normalizeURL link.URL } depth with
  | false =>
      rw [enqueue_scope_false none scope st link depth hsc]
      exact ⟨rfl, rfl, rfl⟩
  | true =>
      cases hg : getURLInfo st.store
          (urlKey (urlString (normalizeURL link.URL))) with
      | ok i =>
          rw [enqueue_known none scope st link depth i hg]
          exact ⟨rfl, rfl, rfl⟩
      | error e =>
          rw [enqueue_new_none scope st link depth e hsc hg]
          have hkey : urlKey c ≠ urlKey (urlString (normalizeURL link.URL)) :=
            urlKey_ne (urlString (normalizeURL link.URL)) c
              (fun he => hne he.symm)
          refine ⟨?_, ?_, ?_⟩
          · exact storeCount_put_other st.store _ (urlKey c) _ hkey
          · rw [queueCountFor_append, queueCountFor_singleton, if_neg hne]
            exact Nat.add_zero _
          · exact getURLInfo_put_other st.store _ (urlKey c) _ hkey

theorem enqueueSeq_inv1 (scope : Scope) (c : String) :
    ∀ (seq : List (Outlink × Int)) (st : CrawlState),
      storeCount st.store (urlKey c) = 1 →
      queueCountFor st.queue c = 1 →
      (∃ i, getURLInfo st.store (urlKey c) = Except.ok i) →
      storeCount (enqueueSeq scope st seq).store (urlKey c) = 1 ∧
      queueCountFor (enqueueSeq scope st seq).queue c = 1 ∧
      (∃ i, getURLInfo (enqueueSeq scope st seq).store (urlKey c) =
        Except.ok i) := by
  intro seq
  induction seq with
  | nil =>
      intro st h1 h2 h3
      exact ⟨h1, h2, h3⟩
  | cons hd tl ih =>
      intro st h1 h2 h3
      have hstep : enqueueSeq scope st (hd :: tl) =
          enqueueSeq scope (enqueue none scope st hd.1 hd.2).1 tl := rfl
      rw [hstep]
      by_cases hc : urlString (normalizeURL hd.1.URL) = c
      · obtain ⟨i, hi⟩ := h3
        have hnoop : enqueue none scope st hd.1 hd.2 = (st, none) :=
          enqueue_known none scope st hd.1 hd.2 i (by rw [hc]; exact hi)
        rw [hnoop]
        exact ih st h1 h2 ⟨i, hi⟩
      · obtain ⟨hs, hq, hg⟩ := enqueue_other_canon scope st hd.1 hd.2 c hc
        refine ih _ (hs.trans h1) (hq.trans h2) ?_
        rw [hg]
        exact h3

theorem enqueueSeq_inv0 (scope : Scope) (c : String) :
    ∀ (seq : List (Outlink × Int)) (st : CrawlState),
      storeCount st.store (urlKey c) = 0 →
      queueCountFor st.queue c = 0 →
      (∃ call ∈ seq, urlString (normalizeURL call.1.URL) = c ∧
        scope { call.1 with URL := normalizeURL call.1.URL } call.2 = true) →
      storeCount (enqueueSeq scope st seq).store (urlKey c) = 1 ∧
      queueCountFor (enqueueSeq scope st seq).queue c = 1 := by
  intro seq
  induction seq with
  | nil =>
      intro st _ _ hex
      rcases hex with ⟨call, hmem, _⟩
      exact absurd hmem (List.not_mem_nil call)
  | cons hd tl ih =>
      intro st h0s h0q hex
      have hstep : enqueueSeq scope st (hd :: tl) =
          enqueueSeq scope (enqueue none scope st hd.1 hd.2).1 tl := rfl
      rw [hstep]
      by_cases hc : urlString (normalizeURL hd.1.URL) = c
      · by_cases hsc : scope { hd.1 with URL := normalizeURL hd.1.URL } hd.2 = true
        · have hn : storeGet st.store (urlKey c) = none :=
            storeGet_none_of_count_zero _ _ h0s
          have hg : getURLInfo st.store
              (urlKey (urlString (normalizeURL hd.1.URL))) =
              Except.error GetErr.notFound := by
            rw [hc]
            simp only [getURLInfo, getObj, hn]
          rw [enqueue_new_none scope st hd.1 hd.2 GetErr.notFound hsc hg]
          have h1s : storeCount
              (storePut st.store (urlKey (urlString (normalizeURL hd.1.URL)))
                (encodeURLInfo emptyURLInfo)) (urlKey c) = 1 := by
            rw [hc]
            exact storeCount_put_same st.store (urlKey c) _
          have h1q : queueCountFor
              (st.queue ++ [(hostPort (normalizeURL hd.1.URL),
                encodeQueueItem ⟨urlString (normalizeURL hd.1.URL), hd.2⟩)]) c = 1 := by
            rw [queueCountFor_append, queueCountFor_singleton, if_pos hc, h0q]
          have h1g : ∃ i, getURLInfo
              (storePut st.store (urlKey (urlString (normalizeURL hd.1.URL)))
                (encodeURLInfo emptyURLInfo)) (urlKey c) =
              Except.ok i := by
            refine ⟨emptyURLInfo, ?_⟩
            rw [hc]
            simp only [getURLInfo, getObj, storeGet_put_same,
              decodeURLInfo_encode]
          obtain ⟨ha, hb, _⟩ := enqueueSeq_inv1 scope c tl
            ⟨storePut st.store (urlKey (urlString (normalizeURL hd.1.URL)))
                (encodeURLInfo emptyURLInfo),
              st.queue ++ [(hostPort (normalizeURL hd.1.URL),
                encodeQueueItem ⟨urlString (normalizeURL hd.1.URL), hd.2⟩)]⟩
            h1s h1q h1g
          exact ⟨ha, hb⟩
        · have hscf : scope { hd.1 with URL := normalizeURL hd.1.URL } hd.2 = false := by
            revert hsc
            cases scope { hd.1 with URL := normalizeURL hd.1.URL } hd.2 <;> simp
          rw [enqueue_scope_false none scope st hd.1 hd.2 hscf]
          refine ih st h0s h0q ?_
          rcases hex with ⟨call, hmem, hcanon, hsc'⟩
          rcases List.mem_cons.1 hmem with h1 | h1
          · rw [h1] at hsc'
            exact absurd hsc' hsc
          · exact ⟨call, h1, hcanon, hsc'⟩
      · obtain ⟨hs, hq, _⟩ := enqueue_other_canon scope st hd.1 hd.2 c hc
        refine ih _ (hs.trans h0s) (hq.trans h0q) ?_
        rcases hex with ⟨call, hmem, hcanon, hsc'⟩
        rcases List.mem_cons.1 hmem with h1 | h1
        · rw [h1] at hcanon
          exact absurd hcanon hc
        · exact ⟨call, h1, hcanon, hsc'⟩

/-- C1: `Enqueue` deduplicates by canonical URL — for any serialized
sequence of `Enqueue` calls (all queue `Add`s succeeding) containing
at least one in-scope occurrence of a canonical URL `c` not yet
known, exactly one frontier entry for `c` is produced and exactly one
`url/<c>` record exists afterwards; and once the `url/<c>` record
exists, `Enqueue` of the same canonical URL performs no `Add` and no
write and returns success (`nil`). -/
theorem claim1_enqueue_dedupe :
    (∀ (addErr : Option GoErr) (scope : Scope) (st : CrawlState)
        (link : Outlink) (depth : Int) (i : URLInfo),
      getURLInfo st.store (urlKey (urlString (normalizeURL link.URL))) =
        Except.ok i →
      enqueue addErr scope st link depth = (st, none))
    ∧ (∀ (scope : Scope) (st : CrawlState) (seq : List (Outlink × Int))
        (c : String),
      storeCount st.store (urlKey c) = 0 →
      queueCountFor st.queue c = 0 →
      (∃ call ∈ seq, urlString (normalizeURL call.1.URL) = c ∧
        scope { call.1 with URL := normalizeURL call.1.URL } call.2 = true) →
      storeCount (enqueueSeq scope st seq).store (urlKey c) = 1 ∧
      queueCountFor (enqueueSeq scope st seq).queue c = 1) :=
  ⟨fun addErr scope st link depth i h =>
      enqueue_known addErr scope st link depth i h,
   fun scope st seq c h0 h1 hex => enqueueSeq_inv0 scope c seq st h0 h1 hex⟩

/-- Witness for C1: two enqueues of the same URL from the empty state
leave exactly one frontier entry and one record. -/
theorem claim1_witness :
    storeCount (enqueueSeq (fun _ _ => true) ⟨[], []⟩
        [(⟨⟨"http", "a", none, [], [], ""⟩, TagPrimary⟩, 0),
         (⟨⟨"http", "a", none, [], [], ""⟩, TagPrimary⟩, 0)]).store
      (urlKey (urlString (normalizeURL ⟨"http", "a", none, [], [], ""⟩))) = 1
    ∧ queueCountFor (enqueueSeq (fun _ _ => true) ⟨[], []⟩
        [(⟨⟨"http", "a", none, [], [], ""⟩, TagPrimary⟩, 0),
         (⟨⟨"http", "a", none, [], [], ""⟩, TagPrimary⟩, 0)]).queue
      (urlString (normalizeURL ⟨"http", "a", none, [], [], ""⟩)) = 1 :=
  claim1_enqueue_dedupe.2 (fun _ _ => true) ⟨[], []⟩
    [(⟨⟨"http", "a", none, [], [], ""⟩, TagPrimary⟩, 0),
     (⟨⟨"http", "a", none, [], [], ""⟩, TagPrimary⟩, 0)]
    (urlString (normalizeURL ⟨"http", "a", none, [], [], ""⟩)) rfl rfl
    ⟨(⟨⟨"http", "a", none, [], [], ""⟩, TagPrimary⟩, 0),
     List.mem_cons_self _ _, rfl, rfl⟩
